import Mathlib

/-!
# Shallow embedding of the keba wallbox client (Go) and verification of its spec

The Go repository polls a KEBA EV charging station over UDP and decodes its
JSON replies into typed records.  This file embeds the pure content of
`keba.go` (and the variant files of the same package) in Lean:

* the `DIPs` bitfield codec (`DIPs.UnmarshalJSON` / `DIPs.String`),
  including a faithful model of `strconv.ParseInt(s, 16, 16)` and
  `strings.TrimPrefix(s, "0x")`;
* a JSON value model plus the relevant parts of Go's `encoding/json`
  field-matching semantics (type mismatches are recorded but decoding
  continues; custom unmarshaler errors abort; `json.Number` accepts a JSON
  number or a numeric string);
* the report schemas `System`, `Config`, `Session`, `Log`/`udpLog` and their
  decoders;
* the `History` slot-scanning loop over an abstract per-slot exchange oracle.

Theorems at the end settle the specification claims against these
definitions.
-/

namespace Keba

/-! ## Go integer parsing (strconv.ParseInt / ParseUint)

`strconv.ParseInt(s, base, bitSize)` accepts an optional sign followed by a
non-empty run of digits of the base, and range-checks the signed result
against `bitSize` bits.  We model the digit classification of `ParseUint`
(which lower-cases letters before the `digit < base` check) and the final
range check; the early-overflow exit of `ParseUint` is observationally the
same as a final range check since both simply yield an error. -/

/-- Digit value of a character in base 16, as computed by Go's
`strconv.ParseUint` (case-insensitive letters, then checked against the
base). -/
def hexVal (c : Char) : Option Nat :=
  if '0' ≤ c ∧ c ≤ '9' then some (c.toNat - 48)
  else if 'a' ≤ c ∧ c ≤ 'f' then some (c.toNat - 97 + 10)
  else if 'A' ≤ c ∧ c ≤ 'F' then some (c.toNat - 65 + 10)
  else none

/-- Digit value of a character in base 10 for `strconv.ParseInt(s, 10, 64)`. -/
def decVal (c : Char) : Option Nat :=
  if '0' ≤ c ∧ c ≤ '9' then some (c.toNat - 48) else none

/-- The digit-accumulation loop of `strconv.ParseUint`: left-to-right fold
`acc := acc*base + digit`, failing on the first non-digit.  `base` is fixed
by the digit-value function `dv`. -/
def parseNatCore (dv : Char → Option Nat) (base : Nat) :
    List Char → Nat → Option Nat
  | [], acc => some acc
  | c :: cs, acc =>
    match dv c with
    | none => none
    | some d => parseNatCore dv base cs (acc * base + d)

/-- Model of `strconv.ParseInt(s, base, bitSize)` on an exploded string: optional
sign, non-empty digit run, signed range check (`maxPos = 2^(bits-1) - 1`,
`maxNeg = 2^(bits-1)`). -/
def parseGoInt (dv : Char → Option Nat) (base maxPos maxNeg : Nat) :
    List Char → Option Int
  | [] => none
  | c :: cs =>
    let p : Bool × List Char :=
      if c = '-' then (true, cs)
      else if c = '+' then (false, cs)
      else (false, c :: cs)
    match p with
    | (neg, ds) =>
      if ds.isEmpty then none
      else
        match parseNatCore dv base ds 0 with
        | none => none
        | some n =>
          if neg then
            if n ≤ maxNeg then some (-(n : Int)) else none
          else
            if n ≤ maxPos then some (n : Int) else none

/-- Instance `strconv.ParseInt(s, 16, 16)` as used by `DIPs.UnmarshalJSON`. -/
def parseIntHex16 (cs : List Char) : Option Int :=
  parseGoInt hexVal 16 32767 32768 cs

/-- Instance `strconv.ParseInt(s, 10, 64)`, the parser behind `json.Number.Int64`
and behind decoding a JSON number literal into a Go `int`. -/
def parseIntDec64 (cs : List Char) : Option Int :=
  parseGoInt decVal 10 (2 ^ 63 - 1) (2 ^ 63) cs

/-! ## The DIPs codec -/

/-- Model of `strings.TrimPrefix(s, "0x")`: if the string has the two-character
leading run `0x`, drop it, else return the string unchanged. -/
def trimPrefix0x (cs : List Char) : List Char :=
  if cs.take 2 = ['0', 'x'] then cs.drop 2 else cs

/-- Body of `DIPs.UnmarshalJSON` after the JSON string has been extracted:
`i, err := strconv.ParseInt(strings.TrimPrefix(s, "0x"), 16, 16)` followed by
`*d = DIPs(i)` — the `int64 → uint16` conversion is reduction mod `2^16`. -/
def parseDipSwitchesL (cs : List Char) : Option Nat :=
  (parseIntHex16 (trimPrefix0x cs)).map fun i => (i % 65536).toNat

/-- String-level wrapper of the `DIPs` text decoder. -/
def parseDipSwitches (s : String) : Option Nat :=
  parseDipSwitchesL s.data

/-- The digit character Go's `fmt` verbs use: `0`-`9` then lowercase
`a`-`f`. -/
def digitChar (d : Nat) : Char :=
  if d ≤ 9 then Char.ofNat (48 + d) else Char.ofNat (87 + d)

/-- Digit emission loop of Go's integer formatting: divide by the base,
emitting remainders as trailing digits.  The fuel argument (instantiated
with `x` itself, an upper bound on the digit count) keeps the recursion
structural. -/
def baseRepCore (b : Nat) : Nat → Nat → List Char
  | _, 0 => []
  | x, fuel + 1 =>
    if x = 0 then [] else baseRepCore b (x / b) fuel ++ [digitChar (x % b)]

/-- Base-`b` representation of `x`, most significant digit first, `"0"` for
zero — the unpadded output of `fmt.Sprintf` with verb `%b` or `%x`. -/
def baseRep (b x : Nat) : List Char :=
  if x = 0 then ['0'] else baseRepCore b x x

/-- Serializer `DIPs.String` from `keba.go`: `fmt.Sprintf("%016b", *d)` — the binary
representation zero-padded on the left to width 16. -/
def formatDipSwitches (x : Nat) : String :=
  ⟨List.replicate (16 - (baseRep 2 x).length) '0' ++ baseRep 2 x⟩

/-- Serializer `DIPs.String` from the variant file `part_002`:
`fmt.Sprintf("0x%x", uint16(*d))` — lowercase hex with a `0x` prefix, no
padding. -/
def formatDipSwitchesHex (x : Nat) : String :=
  ⟨'0' :: 'x' :: baseRep 16 x⟩

/-! ## JSON value model

A well-formed JSON reply datagram, after tokenisation.  Number literals are
kept as the character string on the wire (Go's `encoding/json` also defers
their interpretation to the target type). -/

inductive JVal where
  | jnull
  | jbool (b : Bool)
  | jnum (lit : String)
  | jstr (s : String)
  | jarr (elems : List JVal)
  | jobj (fields : List (String × JVal))

/-- Grammar check `isValidNumber` from Go's `encoding/json`: the RFC 8259 number grammar
(optional minus, integer part without spurious leading zero, optional
fraction, optional exponent). -/
def isDig (c : Char) : Bool := '0' ≤ c ∧ c ≤ '9'

/-- See `isDig`; this mirrors `encoding/json.isValidNumber` step by step. -/
def jsonValidNum (cs0 : List Char) : Bool :=
  match cs0 with
  | [] => false
  | _ =>
    let cs := match cs0 with
      | '-' :: r => r
      | r => r
    match cs with
    | [] => false
    | c :: r =>
      let afterInt : Option (List Char) :=
        if c = '0' then some r
        else if '1' ≤ c ∧ c ≤ '9' then some (r.dropWhile isDig)
        else none
      match afterInt with
      | none => false
      | some s1 =>
        let s2 : List Char :=
          match s1 with
          | '.' :: d :: r2 => if isDig d then r2.dropWhile isDig else s1
          | _ => s1
        let s3 : Option (List Char) :=
          match s2 with
          | e :: sgn :: r4 =>
            if e = 'e' ∨ e = 'E' then
              if sgn = '+' ∨ sgn = '-' then
                if r4 = [] then none else some (r4.dropWhile isDig)
              else some ((sgn :: r4).dropWhile isDig)
            else some s2
          | _ => some s2
        match s3 with
        | none => false
        | some s4 => s4 = []

/-! ## encoding/json field decoding

Decoding a JSON object into a Go struct proceeds key by key in wire order.
A key is matched to a struct field by its JSON tag (or field name), with a
case-insensitive fallback; unknown keys are ignored.  A type mismatch on a
plain field is *recorded* (first error wins) but decoding continues with the
remaining keys; an error from a field's custom `UnmarshalJSON` aborts the
whole decode at that point.  `null` is a no-op for any field.  Since none of
the verified claims depends on the identity of the decode error, a decoder
returns the (partially) populated record together with an `ok` flag. -/

/-- ASCII lower-casing, the relevant fragment of `strings.EqualFold` for the
schema key sets appearing here. -/
def lowerC (c : Char) : Char :=
  if 'A' ≤ c ∧ c ≤ 'Z' then Char.ofNat (c.toNat + 32) else c

/-- Key matching of `encoding/json`: exact match, else ASCII
case-insensitive match. -/
def keyIs (k n : String) : Bool :=
  k == n || k.data.map lowerC == n.data.map lowerC

/-- Decode a JSON value into a Go `int` field (`strconv.ParseInt(lit, 10, 64)`
on the number literal).  Returns the new field value and an `ok` flag; on a
mismatch the field keeps its current value `cur`. -/
def intField (cur : Int) (v : JVal) : Int × Bool :=
  match v with
  | .jnum lit =>
    match parseIntDec64 lit.data with
    | some i => (i, true)
    | none => (cur, false)
  | .jnull => (cur, true)
  | _ => (cur, false)

/-- Decode a JSON value into a Go `string` field. -/
def strField (cur : String) (v : JVal) : String × Bool :=
  match v with
  | .jstr s => (s, true)
  | .jnull => (cur, true)
  | _ => (cur, false)

/-- Decode a JSON value into a `json.Number` field: a JSON number literal is
stored verbatim; a JSON string is stored iff its content passes
`isValidNumber`; `null` is a no-op; anything else is an error. -/
def numField (cur : String) (v : JVal) : String × Bool :=
  match v with
  | .jnum lit => (lit, true)
  | .jstr s => if jsonValidNum s.data then (s, true) else (cur, false)
  | .jnull => (cur, true)
  | _ => (cur, false)

/-- Model of `DIPs.UnmarshalJSON` on a JSON value: extract a JSON string (with `null`
a no-op leaving the empty string), then run the hex parser; on any failure
the stored bitfield `old` is left unchanged. -/
def dipsUnmarshal (v : JVal) (old : Nat) : Nat × Bool :=
  let s? : Option String :=
    match v with
    | .jstr s => some s
    | .jnull => some ""
    | _ => none
  match s? with
  | none => (old, false)
  | some s =>
    match parseDipSwitchesL s.data with
    | some n => (n, true)
    | none => (old, false)

/-- Drive a per-key step function over the keys of a JSON object.  The step
returns the updated record, an `ok` flag for this key, and an `abort` flag
(custom unmarshaler failure) that stops the scan. -/
def decodeObj {α : Type} (step : α → String × JVal → α × Bool × Bool)
    (init : α) : List (String × JVal) → α × Bool
  | [] => (init, true)
  | kv :: rest =>
    match step init kv with
    | (a, ok, abort) =>
      if abort then (a, false)
      else
        match decodeObj step a rest with
        | (a', ok') => (a', ok && ok')

/-! ## Report schemas -/

/-- The `System` report record (`report 1`). -/
structure System where
  Product : String
  Serial : String
  Firmware : String
  COMModule : Int
  Backend : Int
  DIPs : Nat
deriving DecidableEq

/-- Zero value of `System`. -/
def System0 : System := ⟨"", "", "", 0, 0, 0⟩

/-- Per-key step for decoding `System`; the `DIP-Sw` field uses the custom
`DIPs.UnmarshalJSON`, whose failure aborts the decode. -/
def sysStep (s : System) (kv : String × JVal) : System × Bool × Bool :=
  if keyIs kv.1 "Product" then
    match strField s.Product kv.2 with
    | (x, ok) => ({ s with Product := x }, ok, false)
  else if keyIs kv.1 "Serial" then
    match strField s.Serial kv.2 with
    | (x, ok) => ({ s with Serial := x }, ok, false)
  else if keyIs kv.1 "Firmware" then
    match strField s.Firmware kv.2 with
    | (x, ok) => ({ s with Firmware := x }, ok, false)
  else if keyIs kv.1 "COM-module" then
    match intField s.COMModule kv.2 with
    | (x, ok) => ({ s with COMModule := x }, ok, false)
  else if keyIs kv.1 "Backend" then
    match intField s.Backend kv.2 with
    | (x, ok) => ({ s with Backend := x }, ok, false)
  else if keyIs kv.1 "DIP-Sw" then
    match dipsUnmarshal kv.2 s.DIPs with
    | (x, ok) => ({ s with DIPs := x }, ok, !ok)
  else (s, true, false)

/-- Decode a JSON reply into `System`. -/
def decodeSystem (v : JVal) : System × Bool :=
  match v with
  | .jobj kvs => decodeObj sysStep System0 kvs
  | .jnull => (System0, true)
  | _ => (System0, false)

/-- The `Config` report record (`report 2`). -/
structure Config where
  State : Int
  Plug : Int
  MaxCurrent : Int
  CurrentLimit : Int
  EnergyLimit : Int
  Seconds : Int
deriving DecidableEq

/-- Zero value of `Config`. -/
def Config0 : Config := ⟨0, 0, 0, 0, 0, 0⟩

/-- Per-key step for decoding `Config`. -/
def cfgStep (c : Config) (kv : String × JVal) : Config × Bool × Bool :=
  if keyIs kv.1 "State" then
    match intField c.State kv.2 with
    | (x, ok) => ({ c with State := x }, ok, false)
  else if keyIs kv.1 "Plug" then
    match intField c.Plug kv.2 with
    | (x, ok) => ({ c with Plug := x }, ok, false)
  else if keyIs kv.1 "Curr HW" then
    match intField c.MaxCurrent kv.2 with
    | (x, ok) => ({ c with MaxCurrent := x }, ok, false)
  else if keyIs kv.1 "Curr user" then
    match intField c.CurrentLimit kv.2 with
    | (x, ok) => ({ c with CurrentLimit := x }, ok, false)
  else if keyIs kv.1 "Setenergy" then
    match intField c.EnergyLimit kv.2 with
    | (x, ok) => ({ c with EnergyLimit := x }, ok, false)
  else if keyIs kv.1 "Sec" then
    match intField c.Seconds kv.2 with
    | (x, ok) => ({ c with Seconds := x }, ok, false)
  else (c, true, false)

/-- Decode a JSON reply into `Config`. -/
def decodeConfig (v : JVal) : Config × Bool :=
  match v with
  | .jobj kvs => decodeObj cfgStep Config0 kvs
  | .jnull => (Config0, true)
  | _ => (Config0, false)

/-- The `Session` report record (`report 3`). -/
structure Session where
  Energy : Int
  Total : Int
  Voltage1 : Int
  Voltage2 : Int
  Voltage3 : Int
  Current1 : Int
  Current2 : Int
  Current3 : Int
  Power : Int
deriving DecidableEq

/-- Zero value of `Session`. -/
def Session0 : Session := ⟨0, 0, 0, 0, 0, 0, 0, 0, 0⟩

/-- Per-key step for decoding `Session`. -/
def sesStep (s : Session) (kv : String × JVal) : Session × Bool × Bool :=
  if keyIs kv.1 "E pres" then
    match intField s.Energy kv.2 with
    | (x, ok) => ({ s with Energy := x }, ok, false)
  else if keyIs kv.1 "E total" then
    match intField s.Total kv.2 with
    | (x, ok) => ({ s with Total := x }, ok, false)
  else if keyIs kv.1 "U1" then
    match intField s.Voltage1 kv.2 with
    | (x, ok) => ({ s with Voltage1 := x }, ok, false)
  else if keyIs kv.1 "U2" then
    match intField s.Voltage2 kv.2 with
    | (x, ok) => ({ s with Voltage2 := x }, ok, false)
  else if keyIs kv.1 "U3" then
    match intField s.Voltage3 kv.2 with
    | (x, ok) => ({ s with Voltage3 := x }, ok, false)
  else if keyIs kv.1 "I1" then
    match intField s.Current1 kv.2 with
    | (x, ok) => ({ s with Current1 := x }, ok, false)
  else if keyIs kv.1 "I2" then
    match intField s.Current2 kv.2 with
    | (x, ok) => ({ s with Current2 := x }, ok, false)
  else if keyIs kv.1 "I3" then
    match intField s.Current3 kv.2 with
    | (x, ok) => ({ s with Current3 := x }, ok, false)
  else if keyIs kv.1 "P" then
    match intField s.Power kv.2 with
    | (x, ok) => ({ s with Power := x }, ok, false)
  else (s, true, false)

/-- Decode a JSON reply into `Session`. -/
def decodeSession (v : JVal) : Session × Bool :=
  match v with
  | .jobj kvs => decodeObj sesStep Session0 kvs
  | .jnull => (Session0, true)
  | _ => (Session0, false)

/-- Record `Log` — one historical charging session (`udpLog` carries the same
fields, with JSON tags). -/
structure Log where
  Session : Int
  MaxCurrent : Int
  StartTotal : Int
  Energy : Int
  Start : Int
  End : Int
  EndReason : Int
  RFIDTag : String
  RFIDClass : String
deriving DecidableEq

/-- Zero value of `Log`. -/
def Log0 : Log := ⟨0, 0, 0, 0, 0, 0, 0, "", ""⟩

/-- Per-key step for the tag-driven part of `udpLog` (the first
`json.Unmarshal` in `udpLog.UnmarshalJSON`; `Start`/`End` are untagged, so
they answer to their field names). -/
def logStep (l : Log) (kv : String × JVal) : Log × Bool × Bool :=
  if keyIs kv.1 "Session ID" then
    match intField l.Session kv.2 with
    | (x, ok) => ({ l with Session := x }, ok, false)
  else if keyIs kv.1 "Curr HW" then
    match intField l.MaxCurrent kv.2 with
    | (x, ok) => ({ l with MaxCurrent := x }, ok, false)
  else if keyIs kv.1 "E Start" then
    match intField l.StartTotal kv.2 with
    | (x, ok) => ({ l with StartTotal := x }, ok, false)
  else if keyIs kv.1 "E Pres" then
    match intField l.Energy kv.2 with
    | (x, ok) => ({ l with Energy := x }, ok, false)
  else if keyIs kv.1 "Start" then
    match intField l.Start kv.2 with
    | (x, ok) => ({ l with Start := x }, ok, false)
  else if keyIs kv.1 "End" then
    match intField l.End kv.2 with
    | (x, ok) => ({ l with End := x }, ok, false)
  else if keyIs kv.1 "reason" then
    match intField l.EndReason kv.2 with
    | (x, ok) => ({ l with EndReason := x }, ok, false)
  else if keyIs kv.1 "RFID tag" then
    match strField l.RFIDTag kv.2 with
    | (x, ok) => ({ l with RFIDTag := x }, ok, false)
  else if keyIs kv.1 "RFID class" then
    match strField l.RFIDClass kv.2 with
    | (x, ok) => ({ l with RFIDClass := x }, ok, false)
  else (l, true, false)

/-- The first `json.Unmarshal(data, T(l))` inside `udpLog.UnmarshalJSON`. -/
def decodeLogPlain (v : JVal) : Log × Bool :=
  match v with
  | .jobj kvs => decodeObj logStep Log0 kvs
  | .jnull => (Log0, true)
  | _ => (Log0, false)

/-- Per-key step for the anonymous `times` struct with `json.Number` fields
tagged `started[s]` / `ended[s]`. -/
def timesStep (t : String × String) (kv : String × JVal) :
    (String × String) × Bool × Bool :=
  if keyIs kv.1 "started[s]" then
    match numField t.1 kv.2 with
    | (x, ok) => ((x, t.2), ok, false)
  else if keyIs kv.1 "ended[s]" then
    match numField t.2 kv.2 with
    | (x, ok) => ((t.1, x), ok, false)
  else (t, true, false)

/-- The second `json.Unmarshal(data, &times)` inside
`udpLog.UnmarshalJSON`. -/
def decodeTimes (v : JVal) : (String × String) × Bool :=
  match v with
  | .jobj kvs => decodeObj timesStep ("", "") kvs
  | .jnull => (("", ""), true)
  | _ => (("", ""), false)

/-- Model of `udpLog.UnmarshalJSON`: plain decode, then the `times` decode, then
`json.Number.Int64` coercion of each timestamp — a failed coercion leaves
the corresponding field at its zero default. -/
def udpLogUnmarshal (v : JVal) : Log × Bool :=
  match decodeLogPlain v with
  | (l, false) => (l, false)
  | (l, true) =>
    match decodeTimes v with
    | (_, false) => (l, false)
    | ((s1, s2), true) =>
      let l :=
        match parseIntDec64 s1.data with
        | some i => { l with Start := i }
        | none => l
      let l :=
        match parseIntDec64 s2.data with
        | some i => { l with End := i }
        | none => l
      (l, true)

/-! ## Device client

`udp.msg` performs one UDP exchange and feeds the reply datagram to the
JSON decoder.  Its observable outcome for one command is either a transport
failure (dial/write error, read deadline, or a reply that is not well-formed
JSON) or a well-formed JSON reply value; the abstract type `E` stands for
the transport-level error values. -/

inductive Exchange (E : Type) where
  | fail (e : E)
  | reply (v : JVal)

/-- Errors surfaced by one client call: a transport error carried verbatim,
or a decode error from the JSON layer. -/
inductive CallError (E : Type) where
  | transport (e : E)
  | decode
deriving DecidableEq

/-- Model of `udp.System`: `var s System; err := u.msg("report 1", &s); return &s, err`.
The first component models the returned `*System` pointer — the code always
returns `&s`, never `nil`. -/
def SystemCall {E : Type} (m : Exchange E) : Option System × Option (CallError E) :=
  match m with
  | .fail e => (some System0, some (.transport e))
  | .reply v =>
    match decodeSystem v with
    | (s, ok) => (some s, if ok then none else some .decode)

/-- Model of `udp.Config`, as `SystemCall`. -/
def ConfigCall {E : Type} (m : Exchange E) : Option Config × Option (CallError E) :=
  match m with
  | .fail e => (some Config0, some (.transport e))
  | .reply v =>
    match decodeConfig v with
    | (c, ok) => (some c, if ok then none else some .decode)

/-- Model of `udp.Session`, as `SystemCall`. -/
def SessionCall {E : Type} (m : Exchange E) : Option Session × Option (CallError E) :=
  match m with
  | .fail e => (some Session0, some (.transport e))
  | .reply v =>
    match decodeSession v with
    | (s, ok) => (some s, if ok then none else some .decode)

/-! ## History

`udp.History` iterates slot indices 100..130; each iteration performs one
exchange (`u.msg("report i", &l)`) whose decoded outcome we abstract as an
oracle `f : Nat → Except E Log` indexed by the slot number.  The Go return
value `([]Log, error)` is `(nil, err)` on failure and `(hist, nil)` on
success, modelled by `Option (List Log) × Option E`. -/

/-- The loop body of `udp.History`, with the remaining iteration count as
fuel (`fuel = 131 - i` at entry). -/
def HistoryLoop {E : Type} (f : Nat → Except E Log) :
    Nat → Nat → List Log → Option (List Log) × Option E
  | 0, _, acc => (some acc, none)
  | fuel + 1, i, acc =>
    match f i with
    | .error e => (none, some e)
    | .ok l =>
      if l.Session < 0 then (some acc, none)
      else if l.Session = 0 then HistoryLoop f fuel (i + 1) acc
      else if acc.getLast?.map Log.Session = some l.Session then
        HistoryLoop f fuel (i + 1) acc
      else HistoryLoop f fuel (i + 1) (acc ++ [l])

/-- Model of `udp.History`: scan slots 100..130 (31 iterations). -/
def History {E : Type} (f : Nat → Except E Log) : Option (List Log) × Option E :=
  HistoryLoop f 31 100 []

/-- The pure slot-scan described by the spec's history rules: drop zero
sequence numbers, drop an entry equal to the last accepted one, append the
rest in order. -/
def dedupScan (acc : List Log) : List Log → List Log
  | [] => acc
  | l :: ls =>
    if l.Session = 0 then dedupScan acc ls
    else if acc.getLast?.map Log.Session = some l.Session then dedupScan acc ls
    else dedupScan (acc ++ [l]) ls

/-! ## Spec-side definitions for the amended claims -/

/-- Value of a run of hex digit characters, most significant first. -/
def hexRunVal (ds : List Char) : Nat :=
  Nat.ofDigits 16 ((ds.map fun c => (hexVal c).getD 0).reverse)

/-- Sign-and-digits part of the amended-claim acceptance for C4: an
optional sign read off the head, then a non-empty all-hex-digit run whose
signed value must lie in the signed 16-bit range; the accepted value is
reduced mod 2^16. -/
def dipsSpecCore (cs : List Char) : Option Nat :=
  let sgn : Int := if cs.head? = some '-' then -1 else 1
  let ds : List Char :=
    if cs.head? = some '-' ∨ cs.head? = some '+' then cs.tail else cs
  if ds ≠ [] ∧ ds.all (fun c => (hexVal c).isSome) then
    let n : Int := sgn * (hexRunVal ds : Int)
    if -32768 ≤ n ∧ n ≤ 32767 then some (n % 65536).toNat else none
  else none

/-- Acceptance predicate of the amended claim C4, for the content of the
JSON string: optionally strip one leading 0x, then `dipsSpecCore`. -/
def dipsSpecStr (cs0 : List Char) : Option Nat :=
  dipsSpecCore (if cs0.take 2 = ['0', 'x'] then cs0.drop 2 else cs0)

/-- Amended claim C4's decode relation over JSON values: only a JSON string
whose content `dipsSpecStr` accepts decodes, to the accepted value. -/
def dipsSpecDecode (v : JVal) : Option Nat :=
  match v with
  | .jstr s => dipsSpecStr s.data
  | _ => none

/-! ## Concrete oracles and wire examples used by witnesses -/

/-- Slot sequence-number table of the spec's worked history example. -/
def c1Tab : List Int := [5, 5, 6, 0, 7, -1, 8]

/-- Concrete decoded slot values realising `c1Tab` from slot 100 on. -/
def c1Log (i : Nat) : Log := { Log0 with Session := c1Tab.getD (i - 100) 8 }

/-- Concrete slot values whose sequence numbers are 5, 6, 5 (a repeated
non-adjacent sequence number) followed by empty slots; the `Energy` field
distinguishes the three entries. -/
def dblLog (i : Nat) : Log :=
  if i = 100 then { Log0 with Session := 5, Energy := 1 }
  else if i = 101 then { Log0 with Session := 6, Energy := 2 }
  else if i = 102 then { Log0 with Session := 5, Energy := 3 }
  else Log0

/-- Oracle whose slot-102 exchange fails with error value 42 while slots
100 and 101 decode to the example entries. -/
def f5ex : Nat → Except Nat Log :=
  fun i => if i = 102 then .error 42 else .ok (c1Log i)

/-- A well-formed history-slot reply object, without the started timestamp
field; the ended timestamp is present as the JSON number 500. -/
def exLogFields : List (String × JVal) :=
  [("Session ID", .jnum "77"), ("Curr HW", .jnum "16000"),
   ("E Start", .jnum "100"), ("E Pres", .jnum "200"), ("reason", .jnum "1"),
   ("RFID tag", .jstr "tag1"), ("RFID class", .jstr "c1"),
   ("ended[s]", .jnum "500")]

/-- The example reply with a chosen value in the started timestamp field. -/
def withStart (v : JVal) : JVal := .jobj (exLogFields ++ [("started[s]", v)])

/-- What the tag-driven pass decodes from `exLogFields` (both timestamps
still zero — they are only set by the coercion step). -/
def exLogPlain : Log := ⟨77, 16000, 100, 200, 0, 0, 1, "tag1", "c1"⟩

/-- The example entry after the timestamp coercion sets the ended time. -/
def exLogDone : Log := { exLogPlain with End := 500 }

/-- A `report 1` reply whose first field Product is mistyped (a number
where a string belongs) while every later field is well-typed. -/
def exSysBad : JVal := .jobj
  [("Product", .jnum "5"), ("Serial", .jstr "KC-P30"),
   ("Firmware", .jstr "v1"), ("COM-module", .jnum "1"),
   ("Backend", .jnum "0"), ("DIP-Sw", .jstr "0x2600")]

/-- The record decoded from `exSysBad`: Product stays zero, everything
after the mismatch is populated (0x2600 = 9728). -/
def exSysPartial : System := ⟨"", "KC-P30", "v1", 1, 0, 9728⟩

/-- A `report 1` reply whose DIP-Sw field fails its custom unmarshaler
("zz" is not hex) while the fields before and after it are well-typed. -/
def exSysAbort : JVal := .jobj
  [("Product", .jstr "P30"), ("DIP-Sw", .jstr "zz"), ("Serial", .jstr "S")]

/-- The record decoded from `exSysAbort`: the custom-unmarshaler failure
aborts the key scan, so the field decoded before it is retained and the
well-typed field after it stays zero. -/
def exSysAborted : System := ⟨"P30", "", "", 0, 0, 0⟩

/-! ## Unfolding lemmas for the history loop -/

/-- One loop iteration whose exchange fails. -/
theorem HistoryLoop_succ_err {E : Type} {f : Nat → Except E Log} {m i : Nat}
    {acc : List Log} {e : E} (h : f i = .error e) :
    HistoryLoop f (m + 1) i acc = (none, some e) := by
  show (match f i with
    | .error e => (none, some e)
    | .ok l =>
      if l.Session < 0 then (some acc, none)
      else if l.Session = 0 then HistoryLoop f m (i + 1) acc
      else if acc.getLast?.map Log.Session = some l.Session then
        HistoryLoop f m (i + 1) acc
      else HistoryLoop f m (i + 1) (acc ++ [l])) = _
  rw [h]

/-- One loop iteration whose exchange decodes to `l`. -/
theorem HistoryLoop_succ_ok {E : Type} {f : Nat → Except E Log} {m i : Nat}
    {acc : List Log} {l : Log} (h : f i = .ok l) :
    HistoryLoop f (m + 1) i acc =
      if l.Session < 0 then (some acc, none)
      else if l.Session = 0 then HistoryLoop f m (i + 1) acc
      else if acc.getLast?.map Log.Session = some l.Session then
        HistoryLoop f m (i + 1) acc
      else HistoryLoop f m (i + 1) (acc ++ [l]) := by
  show (match f i with
    | .error e => (none, some e)
    | .ok l =>
      if l.Session < 0 then (some acc, none)
      else if l.Session = 0 then HistoryLoop f m (i + 1) acc
      else if acc.getLast?.map Log.Session = some l.Session then
        HistoryLoop f m (i + 1) acc
      else HistoryLoop f m (i + 1) (acc ++ [l])) = _
  rw [h]

/-- A zero sequence number is skipped by the pure scan. -/
theorem dedupScan_cons_zero {acc : List Log} {l : Log} {ls : List Log}
    (hz : l.Session = 0) : dedupScan acc (l :: ls) = dedupScan acc ls := by
  simp only [dedupScan]
  rw [if_pos hz]

/-- An entry repeating the last accepted sequence number is skipped. -/
theorem dedupScan_cons_dup {acc : List Log} {l : Log} {ls : List Log}
    (hz : ¬ l.Session = 0) (hd : acc.getLast?.map Log.Session = some l.Session) :
    dedupScan acc (l :: ls) = dedupScan acc ls := by
  simp only [dedupScan]
  rw [if_neg hz, if_pos hd]

/-- Any other entry is appended. -/
theorem dedupScan_cons_app {acc : List Log} {l : Log} {ls : List Log}
    (hz : ¬ l.Session = 0) (hd : ¬ acc.getLast?.map Log.Session = some l.Session) :
    dedupScan acc (l :: ls) = dedupScan (acc ++ [l]) ls := by
  simp only [dedupScan]
  rw [if_neg hz, if_neg hd]

/-! ## Behaviour lemmas for the history loop -/

/-- If the first failing exchange is at relative offset `k` (every earlier
slot decodes with a non-negative sequence number, so the loop neither breaks
nor errors before it), the loop returns `nil` and exactly that error. -/
theorem HistoryLoop_err {E : Type} (f : Nat → Except E Log) :
    ∀ (k fuel i : Nat) (acc : List Log) (e : E), k < fuel →
      f (i + k) = .error e →
      (∀ j, j < k → ∃ l, f (i + j) = .ok l ∧ 0 ≤ l.Session) →
      HistoryLoop f fuel i acc = (none, some e) := by
  intro k
  induction k with
  | zero =>
    intro fuel i acc e hk hf _
    cases fuel with
    | zero => omega
    | succ m =>
      rw [Nat.add_zero] at hf
      exact HistoryLoop_succ_err hf
  | succ k ih =>
    intro fuel i acc e hk hf hj
    cases fuel with
    | zero => omega
    | succ m =>
      obtain ⟨l, hfl, hs⟩ := hj 0 (by omega)
      rw [Nat.add_zero] at hfl
      have hf' : f (i + 1 + k) = .error e := by
        rw [show i + 1 + k = i + (k + 1) by omega]; exact hf
      have hj' : ∀ j, j < k → ∃ l, f (i + 1 + j) = .ok l ∧ 0 ≤ l.Session := by
        intro j hjk
        have := hj (j + 1) (by omega)
        rwa [show i + (j + 1) = i + 1 + j by omega] at this
      have hrec := ih m (i + 1) acc e (by omega) hf' hj'
      have hrec' := ih m (i + 1) (acc ++ [l]) e (by omega) hf' hj'
      rw [HistoryLoop_succ_ok hfl]
      have hneg : ¬ l.Session < 0 := by omega
      simp only [hneg, if_false]
      by_cases hz : l.Session = 0
      · simp [hz, hrec]
      · simp only [hz, if_false]
        by_cases hd : acc.getLast?.map Log.Session = some l.Session
        · simp [hd, hrec]
        · simp [hd, hrec']

/-- When every consulted slot decodes with a non-negative sequence number,
the loop is the pure scan `dedupScan` over the decoded slot values in slot
order. -/
theorem HistoryLoop_scan {E : Type} (g : Nat → Log) :
    ∀ (fuel i : Nat) (acc : List Log),
      (∀ k, k < fuel → 0 ≤ (g (i + k)).Session) →
      HistoryLoop (E := E) (fun j => .ok (g j)) fuel i acc
        = (some (dedupScan acc ((List.range fuel).map fun k => g (i + k))), none) := by
  intro fuel
  induction fuel with
  | zero =>
    intro i acc h
    simp [HistoryLoop, dedupScan]
  | succ m ih =>
    intro i acc h
    have h0 : 0 ≤ (g i).Session := by
      have := h 0 (by omega); rwa [Nat.add_zero] at this
    have hmap : (List.range (m + 1)).map (fun k => g (i + k))
        = g i :: (List.range m).map fun k => g (i + 1 + k) := by
      rw [List.range_succ_eq_map, List.map_cons, List.map_map]
      refine congrArg₂ _ (by rw [Nat.add_zero]) (List.map_congr_left ?_)
      intro k _
      simp only [Function.comp_apply]
      rw [show i + Nat.succ k = i + 1 + k by omega]
    have h' : ∀ k, k < m → 0 ≤ (g (i + 1 + k)).Session := by
      intro k hk
      have := h (k + 1) (by omega)
      rwa [show i + (k + 1) = i + 1 + k by omega] at this
    have hneg : ¬ (g i).Session < 0 := by omega
    rw [hmap, HistoryLoop_succ_ok (f := fun j => .ok (g j)) rfl, if_neg hneg]
    by_cases hz : (g i).Session = 0
    · rw [if_pos hz, ih (i + 1) acc h', dedupScan_cons_zero hz]
    · rw [if_neg hz]
      by_cases hd : acc.getLast?.map Log.Session = some (g i).Session
      · rw [if_pos hd, ih (i + 1) acc h', dedupScan_cons_dup hz hd]
      · rw [if_neg hd, ih (i + 1) (acc ++ [g i]) h', dedupScan_cons_app hz hd]

/-- Invariant carried by the loop accumulator: positive sequence numbers,
no two adjacent equal sequence numbers, bounded growth. -/
theorem HistoryLoop_inv {E : Type} (f : Nat → Except E Log) :
    ∀ (fuel i : Nat) (acc hist : List Log),
      (∀ l ∈ acc, 0 < l.Session) →
      List.Chain' (fun a b => a.Session ≠ b.Session) acc →
      HistoryLoop f fuel i acc = (some hist, none) →
      (∀ l ∈ hist, 0 < l.Session) ∧
        List.Chain' (fun a b => a.Session ≠ b.Session) hist ∧
        hist.length ≤ acc.length + fuel := by
  intro fuel
  induction fuel with
  | zero =>
    intro i acc hist hpos hch heq
    simp only [HistoryLoop, Prod.mk.injEq, Option.some.injEq] at heq
    rcases heq with ⟨rfl, -⟩
    exact ⟨hpos, hch, by omega⟩
  | succ m ih =>
    intro i acc hist hpos hch heq
    cases hf : f i with
    | error e =>
      rw [HistoryLoop_succ_err hf] at heq
      simp at heq
    | ok l =>
      rw [HistoryLoop_succ_ok hf] at heq
      by_cases hneg : l.Session < 0
      · rw [if_pos hneg] at heq
        simp only [Prod.mk.injEq, Option.some.injEq] at heq
        rcases heq with ⟨rfl, -⟩
        exact ⟨hpos, hch, by omega⟩
      · rw [if_neg hneg] at heq
        by_cases hz : l.Session = 0
        · rw [if_pos hz] at heq
          have := ih (i + 1) acc hist hpos hch heq
          exact ⟨this.1, this.2.1, by omega⟩
        · rw [if_neg hz] at heq
          by_cases hd : acc.getLast?.map Log.Session = some l.Session
          · rw [if_pos hd] at heq
            have := ih (i + 1) acc hist hpos hch heq
            exact ⟨this.1, this.2.1, by omega⟩
          · rw [if_neg hd] at heq
            have hlpos : 0 < l.Session := by omega
            have hpos' : ∀ x ∈ acc ++ [l], 0 < x.Session := by
              intro x hx
              rcases List.mem_append.1 hx with hx | hx
              · exact hpos x hx
              · rcases List.mem_singleton.1 hx with rfl; exact hlpos
            have hch' : List.Chain' (fun a b => a.Session ≠ b.Session) (acc ++ [l]) := by
              refine List.chain'_append.2 ⟨hch, List.chain'_singleton l, ?_⟩
              intro x hx y hy
              simp only [List.head?_cons, Option.mem_def, Option.some.injEq] at hy
              subst hy
              intro hcon
              exact hd (by rw [hx]; simp [hcon])
            have := ih (i + 1) (acc ++ [l]) hist hpos' hch' heq
            refine ⟨this.1, this.2.1, ?_⟩
            have := this.2.2
            simp only [List.length_append, List.length_singleton] at this
            omega

/-! ## Characterisation of the Go digit parser -/

/-- When every character is a digit, the accumulation loop computes the
base-`b` value of the digit string (generalised over the accumulator). -/
theorem parseNatCore_all (dv : Char → Option Nat) (b : Nat) :
    ∀ (cs : List Char) (a : Nat),
      (∀ c ∈ cs, (dv c).isSome) →
      parseNatCore dv b cs a
        = some (a * b ^ cs.length
            + Nat.ofDigits b ((cs.map fun c => (dv c).getD 0).reverse)) := by
  intro cs
  induction cs with
  | nil => intro a h; simp [parseNatCore, Nat.ofDigits]
  | cons c cs ih =>
    intro a h
    obtain ⟨d, hd⟩ := Option.isSome_iff_exists.1 (h c (List.mem_cons_self c cs))
    have hrest : ∀ x ∈ cs, (dv x).isSome := fun x hx => h x (List.mem_cons_of_mem c hx)
    simp only [parseNatCore, hd]
    rw [ih (a * b + d) hrest]
    congr 1
    simp only [List.map_cons, List.reverse_cons, Nat.ofDigits_append,
      List.length_cons, List.length_reverse, List.length_map, hd, Option.getD_some]
    simp [Nat.ofDigits, pow_succ]
    ring

/-- A single non-digit character fails the whole run. -/
theorem parseNatCore_bad (dv : Char → Option Nat) (b : Nat) :
    ∀ (cs : List Char) (a : Nat), (∃ c ∈ cs, dv c = none) →
      parseNatCore dv b cs a = none := by
  intro cs
  induction cs with
  | nil => intro a h; simp at h
  | cons c cs ih =>
    intro a h
    rcases h with ⟨x, hx, hnone⟩
    rcases List.mem_cons.1 hx with rfl | hx
    · simp [parseNatCore, hnone]
    · cases hc : dv c with
      | none => simp [parseNatCore, hc]
      | some d => simp only [parseNatCore, hc]; exact ih _ ⟨x, hx, hnone⟩

/-- The hex digit loop started at 0 computes `hexRunVal`. -/
theorem parseNatCore_hex (ds : List Char)
    (hall : ∀ c ∈ ds, (hexVal c).isSome) :
    parseNatCore hexVal 16 ds 0 = some (hexRunVal ds) := by
  rw [parseNatCore_all hexVal 16 ds 0 hall]
  simp [hexRunVal]

/-- Reduction of `ParseInt` on a string with a leading minus sign. -/
theorem parseGoInt_neg_head (dv : Char → Option Nat) (b mp mn : Nat)
    (r : List Char) :
    parseGoInt dv b mp mn ('-' :: r)
      = if r.isEmpty then none
        else match parseNatCore dv b r 0 with
          | none => none
          | some n => if n ≤ mn then some (-(n : Int)) else none := by
  rfl

/-- Reduction of `ParseInt` on a string with a leading plus sign. -/
theorem parseGoInt_plus_head (dv : Char → Option Nat) (b mp mn : Nat)
    (r : List Char) :
    parseGoInt dv b mp mn ('+' :: r)
      = if r.isEmpty then none
        else match parseNatCore dv b r 0 with
          | none => none
          | some n => if n ≤ mp then some ((n : Int)) else none := by
  rfl

/-- Reduction of `ParseInt` on a string with no sign character. -/
theorem parseGoInt_other_head (dv : Char → Option Nat) (b mp mn : Nat)
    (c : Char) (r : List Char) (h1 : c ≠ '-') (h2 : c ≠ '+') :
    parseGoInt dv b mp mn (c :: r)
      = if (c :: r).isEmpty then none
        else match parseNatCore dv b (c :: r) 0 with
          | none => none
          | some n => if n ≤ mp then some ((n : Int)) else none := by
  simp [parseGoInt, h1, h2]

/-! ## Reductions of the amended-claim acceptance -/

/-- Empty content is rejected. -/
theorem dipsSpecCore_nil : dipsSpecCore [] = none := by
  simp [dipsSpecCore]

/-- Acceptance after a leading minus sign. -/
theorem dipsSpecCore_neg (r : List Char) :
    dipsSpecCore ('-' :: r)
      = if r ≠ [] ∧ r.all (fun c => (hexVal c).isSome) then
          if -32768 ≤ -1 * (hexRunVal r : Int) ∧ -1 * (hexRunVal r : Int) ≤ 32767
          then some ((-1 * (hexRunVal r : Int)) % 65536).toNat else none
        else none := by
  simp [dipsSpecCore]

/-- Acceptance after a leading plus sign. -/
theorem dipsSpecCore_plus (r : List Char) :
    dipsSpecCore ('+' :: r)
      = if r ≠ [] ∧ r.all (fun c => (hexVal c).isSome) then
          if -32768 ≤ (1 : Int) * (hexRunVal r : Int)
              ∧ (1 : Int) * (hexRunVal r : Int) ≤ 32767
          then some (((1 : Int) * (hexRunVal r : Int)) % 65536).toNat else none
        else none := by
  have hpm : ('+' : Char) ≠ '-' := by decide
  simp [dipsSpecCore, hpm]

/-- Acceptance with no sign character. -/
theorem dipsSpecCore_other (c : Char) (r : List Char)
    (h1 : c ≠ '-') (h2 : c ≠ '+') :
    dipsSpecCore (c :: r)
      = if (c :: r) ≠ [] ∧ (c :: r).all (fun x => (hexVal x).isSome) then
          if -32768 ≤ (1 : Int) * (hexRunVal (c :: r) : Int)
              ∧ (1 : Int) * (hexRunVal (c :: r) : Int) ≤ 32767
          then some (((1 : Int) * (hexRunVal (c :: r) : Int)) % 65536).toNat
          else none
        else none := by
  simp [dipsSpecCore, h1, h2]

/-- The positive branch of `ParseInt(·, 16, 16)` followed by the `uint16`
conversion agrees with the amended-claim acceptance on the digit run. -/
theorem dips_side_pos (r : List Char) :
    Option.map (fun i : Int => (i % 65536).toNat)
      (if r.isEmpty then none
        else match parseNatCore hexVal 16 r 0 with
          | none => none
          | some n => if n ≤ 32767 then some ((n : Int)) else none)
      = if r ≠ [] ∧ r.all (fun c => (hexVal c).isSome) then
          if -32768 ≤ (1 : Int) * (hexRunVal r : Int)
              ∧ (1 : Int) * (hexRunVal r : Int) ≤ 32767
          then some (((1 : Int) * (hexRunVal r : Int)) % 65536).toNat else none
        else none := by
  rcases r with _ | ⟨d, r'⟩
  · simp
  · simp only [List.isEmpty_cons, Bool.false_eq_true, if_false]
    by_cases hall : ∀ x ∈ d :: r', (hexVal x).isSome
    · rw [parseNatCore_hex _ hall]
      rw [if_pos ⟨by simp, List.all_eq_true.2 hall⟩]
      have hiff : hexRunVal (d :: r') ≤ 32767
          ↔ (-32768 ≤ (1 : Int) * (hexRunVal (d :: r') : Int)
              ∧ (1 : Int) * (hexRunVal (d :: r') : Int) ≤ 32767) := by
        rw [one_mul]; omega
      by_cases hle : hexRunVal (d :: r') ≤ 32767
      · rw [if_pos (hiff.1 hle)]
        show Option.map (fun i : Int => (i % 65536).toNat)
          (if hexRunVal (d :: r') ≤ 32767 then some ((hexRunVal (d :: r') : Int))
            else none) = _
        rw [if_pos hle, Option.map_some', one_mul]
      · rw [if_neg (fun hcon => hle (hiff.2 hcon))]
        show Option.map _ (if hexRunVal (d :: r') ≤ 32767 then _ else none) = none
        rw [if_neg hle]
        rfl
    · have hbad : ∃ x ∈ d :: r', hexVal x = none := by
        push_neg at hall
        obtain ⟨x, hx, hns⟩ := hall
        exact ⟨x, hx, Option.not_isSome_iff_eq_none.1 hns⟩
      rw [parseNatCore_bad _ _ _ _ hbad]
      rw [if_neg (by
        rintro ⟨-, hcon⟩
        obtain ⟨x, hx, hn⟩ := hbad
        have := List.all_eq_true.1 hcon x hx
        rw [hn] at this
        simp at this)]
      rfl

/-- The negative branch, with the asymmetric bound 32768. -/
theorem dips_side_neg (r : List Char) :
    Option.map (fun i : Int => (i % 65536).toNat)
      (if r.isEmpty then none
        else match parseNatCore hexVal 16 r 0 with
          | none => none
          | some n => if n ≤ 32768 then some (-(n : Int)) else none)
      = if r ≠ [] ∧ r.all (fun c => (hexVal c).isSome) then
          if -32768 ≤ -1 * (hexRunVal r : Int) ∧ -1 * (hexRunVal r : Int) ≤ 32767
          then some ((-1 * (hexRunVal r : Int)) % 65536).toNat else none
        else none := by
  rcases r with _ | ⟨d, r'⟩
  · simp
  · simp only [List.isEmpty_cons, Bool.false_eq_true, if_false]
    by_cases hall : ∀ x ∈ d :: r', (hexVal x).isSome
    · rw [parseNatCore_hex _ hall]
      rw [if_pos ⟨by simp, List.all_eq_true.2 hall⟩]
      have hiff : hexRunVal (d :: r') ≤ 32768
          ↔ (-32768 ≤ -1 * (hexRunVal (d :: r') : Int)
              ∧ -1 * (hexRunVal (d :: r') : Int) ≤ 32767) := by
        rw [neg_one_mul]; omega
      by_cases hle : hexRunVal (d :: r') ≤ 32768
      · rw [if_pos (hiff.1 hle)]
        show Option.map (fun i : Int => (i % 65536).toNat)
          (if hexRunVal (d :: r') ≤ 32768 then some (-(hexRunVal (d :: r') : Int))
            else none) = _
        rw [if_pos hle, Option.map_some', neg_one_mul]
      · rw [if_neg (fun hcon => hle (hiff.2 hcon))]
        show Option.map _ (if hexRunVal (d :: r') ≤ 32768 then _ else none) = none
        rw [if_neg hle]
        rfl
    · have hbad : ∃ x ∈ d :: r', hexVal x = none := by
        push_neg at hall
        obtain ⟨x, hx, hns⟩ := hall
        exact ⟨x, hx, Option.not_isSome_iff_eq_none.1 hns⟩
      rw [parseNatCore_bad _ _ _ _ hbad]
      rw [if_neg (by
        rintro ⟨-, hcon⟩
        obtain ⟨x, hx, hn⟩ := hbad
        have := List.all_eq_true.1 hcon x hx
        rw [hn] at this
        simp at this)]
      rfl

/-- The DIPs text decoder equals the amended-claim acceptance. -/
theorem parseDips_eq_spec (cs0 : List Char) :
    parseDipSwitchesL cs0 = dipsSpecStr cs0 := by
  unfold parseDipSwitchesL parseIntHex16 dipsSpecStr trimPrefix0x
  generalize (if cs0.take 2 = ['0', 'x'] then cs0.drop 2 else cs0) = ts
  rcases ts with _ | ⟨c, r⟩
  · rw [dipsSpecCore_nil]
    rfl
  · by_cases hm : c = '-'
    · subst hm
      rw [parseGoInt_neg_head, dipsSpecCore_neg, dips_side_neg]
    · by_cases hp : c = '+'
      · subst hp
        rw [parseGoInt_plus_head, dipsSpecCore_plus, dips_side_pos]
      · rw [parseGoInt_other_head _ _ _ _ _ _ hm hp, dipsSpecCore_other _ _ hm hp,
          dips_side_pos]

/-! ## Claim theorems -/

/-- Claim C1: if the slots 100..105 decode to entries with session sequence
numbers 5, 5, 6, 0, 7, -1, then History returns exactly the entries with
sequence numbers 5, 6, 7 in that order and stops at slot 105.  The oracle
is unconstrained at slot 106 and beyond, so the result cannot depend on any
exchange past the negative terminator — slot 106 is never consulted. -/
theorem claim1_history_example {E : Type} (f : Nat → Except E Log)
    (l0 l1 l2 l3 l4 l5 : Log)
    (h0 : f 100 = .ok l0) (h1 : f 101 = .ok l1) (h2 : f 102 = .ok l2)
    (h3 : f 103 = .ok l3) (h4 : f 104 = .ok l4) (h5 : f 105 = .ok l5)
    (s0 : l0.Session = 5) (s1 : l1.Session = 5) (s2 : l2.Session = 6)
    (s3 : l3.Session = 0) (s4 : l4.Session = 7) (s5 : l5.Session = -1) :
    History f = (some [l0, l2, l4], none) := by
  simp [History, HistoryLoop, h0, h1, h2, h3, h4, h5, s0, s1, s2, s3, s4, s5]

/-- Witness for C1 at the concrete oracle realising the example table. -/
theorem claim1_witness :
    History (E := Unit) (fun i => .ok (c1Log i))
      = (some [c1Log 100, c1Log 102, c1Log 104], none) :=
  claim1_history_example _ (c1Log 100) (c1Log 101) (c1Log 102) (c1Log 103)
    (c1Log 104) (c1Log 105) rfl rfl rfl rfl rfl rfl
    (by decide) (by decide) (by decide) (by decide) (by decide) (by decide)

/-- Claim C5: if the exchange at slot 100+k fails with error e and every
earlier slot decoded with a non-negative sequence number (so the loop
reaches slot 100+k), then History fails with exactly that error and
returns the nil list — no partial result. -/
theorem claim5_error_aborts {E : Type} (f : Nat → Except E Log) (k : Nat)
    (e : E) (hk : k ≤ 30) (hf : f (100 + k) = .error e)
    (hpre : ∀ j, j < k → ∃ l, f (100 + j) = .ok l ∧ 0 ≤ l.Session) :
    History f = (none, some e) :=
  HistoryLoop_err f k 31 100 [] e (by omega) hf hpre

/-- Witness for C5: a failure at slot 102 after two good slots. -/
theorem claim5_witness : History f5ex = (none, some 42) :=
  claim5_error_aborts f5ex 2 42 (by omega) rfl
    (by
      intro j hj
      interval_cases j
      · exact ⟨c1Log 100, rfl, by decide⟩
      · exact ⟨c1Log 101, rfl, by decide⟩)

/-- Claim C6: when every slot in 100..130 decodes and no sequence number is
negative, History scans all 31 slots and returns the pure scan that keeps
each entry with a non-zero sequence number different from the last accepted
entry's, in slot order; and (second conjunct) because the duplicate skip
only compares with the last accepted entry, the sequence numbers 5, 6, 5
produce three entries — the repeated non-adjacent number 5 is counted
twice. -/
theorem claim6_full_scan {E : Type} (g : Nat → Log)
    (h : ∀ i, 100 ≤ i → i ≤ 130 → 0 ≤ (g i).Session) :
    History (E := E) (fun j => .ok (g j))
      = (some (dedupScan [] ((List.range 31).map fun k => g (100 + k))), none) ∧
    History (E := Unit) (fun j => .ok (dblLog j))
      = (some [dblLog 100, dblLog 101, dblLog 102], none) := by
  constructor
  · exact HistoryLoop_scan g 31 100 []
      (fun k hk => h (100 + k) (by omega) (by omega))
  · decide

/-- Witness for C6 at the 5, 6, 5 oracle. -/
theorem claim6_witness :
    History (E := Unit) (fun j => .ok (dblLog j))
      = (some (dedupScan [] ((List.range 31).map fun k => dblLog (100 + k))), none) ∧
    History (E := Unit) (fun j => .ok (dblLog j))
      = (some [dblLog 100, dblLog 101, dblLog 102], none) :=
  claim6_full_scan dblLog
    (by
      intro i _ _
      by_cases h1 : i = 100 <;> by_cases h2 : i = 101 <;> by_cases h3 : i = 102 <;>
        simp [dblLog, h1, h2, h3, Log0])

/-- Claim C9: every list returned by a successful History call consists of
entries with strictly positive session sequence numbers, has no two
adjacent entries with equal sequence numbers, and holds at most 31
entries. -/
theorem claim9_invariants {E : Type} (f : Nat → Except E Log)
    (hist : List Log) (h : History f = (some hist, none)) :
    (∀ l ∈ hist, 0 < l.Session) ∧
      List.Chain' (fun a b => a.Session ≠ b.Session) hist ∧
      hist.length ≤ 31 := by
  have := HistoryLoop_inv f 31 100 [] hist (by simp) (by simp) h
  simpa using this

/-- Witness for C9 at the example oracle of C1. -/
theorem claim9_witness :
    (∀ l ∈ [c1Log 100, c1Log 102, c1Log 104], 0 < l.Session) ∧
      List.Chain' (fun a b => a.Session ≠ b.Session)
        [c1Log 100, c1Log 102, c1Log 104] ∧
      ([c1Log 100, c1Log 102, c1Log 104] : List Log).length ≤ 31 :=
  claim9_invariants (E := Unit) (fun i => .ok (c1Log i))
    [c1Log 100, c1Log 102, c1Log 104] (by decide)

/-- Claim C2 (the code contradicts the round-trip invariant):
`DIPs.String` in keba.go emits 16 zero-padded binary digits, which
`UnmarshalJSON` re-parses as hex, so the round trip already fails at
x = 2 (re-parsed as 16) and range-fails at x = 255; the hex serializer
of the variant file round-trips 255 but range-fails at x = 32768 because
`ParseInt(s, 16, 16)` enforces the signed 16-bit range. -/
theorem claim2_roundtrip_bug :
    formatDipSwitches 255 = "0000000011111111" ∧
    parseDipSwitches (formatDipSwitches 255) = none ∧
    parseDipSwitches (formatDipSwitches 2) = some 16 ∧
    ¬ parseDipSwitches (formatDipSwitches 2) = some 2 ∧
    formatDipSwitchesHex 255 = "0xff" ∧
    parseDipSwitches (formatDipSwitchesHex 255) = some 255 ∧
    formatDipSwitchesHex 32768 = "0x8000" ∧
    parseDipSwitches (formatDipSwitchesHex 32768) = none := by
  decide

/-- Counterexample to claim C4 as stated: the JSON string "ff" is not of
the 0x-prefixed hex form yet decodes successfully (to 255, overwriting the
target), and "0xffff" is of that form yet fails with a decode error. -/
theorem claim4_counterexample :
    dipsUnmarshal (.jstr "ff") 7 = (255, true) ∧
    dipsUnmarshal (.jstr "0xffff") 7 = (7, false) := by
  decide

/-- Amended claim C4: `DIPs` decoding succeeds exactly on JSON strings
whose content, after optionally stripping one leading 0x, is an optional
sign followed by a non-empty run of case-insensitive hex digits whose
signed value lies in [-32768, 32767]; the stored bitfield is that value
mod 2^16, and every other input fails and leaves the target unchanged. -/
theorem claim4_dips_decode_domain (v : JVal) (old : Nat) :
    dipsUnmarshal v old
      = match dipsSpecDecode v with
        | some n => (n, true)
        | none => (old, false) := by
  cases v with
  | jstr s =>
    show (match parseDipSwitchesL s.data with
      | some n => (n, true)
      | none => (old, false)) = _
    rw [parseDips_eq_spec]
    rfl
  | jnull => rfl
  | jbool b => rfl
  | jnum lit => rfl
  | jarr es => rfl
  | jobj kvs => rfl

/-- Claim C7: the strings "0xFF", "0xff" and "0x00ff" all decode to the
bitfield value 255 — hex digits are case-insensitive and leading zeros do
not matter — both at the text-parser level and through
`DIPs.UnmarshalJSON`. -/
theorem claim7_case_insensitive :
    parseDipSwitches "0xFF" = some 255 ∧
    parseDipSwitches "0xff" = some 255 ∧
    parseDipSwitches "0x00ff" = some 255 ∧
    dipsUnmarshal (.jstr "0xFF") 0 = (255, true) ∧
    dipsUnmarshal (.jstr "0xff") 0 = (255, true) ∧
    dipsUnmarshal (.jstr "0x00ff") 0 = (255, true) := by
  decide

/-! ## Composition lemmas for the history-slot decoder on the example
reply -/

/-- The tag-driven pass ignores the started timestamp field whatever its
value. -/
theorem decodeLogPlain_withStart (v : JVal) :
    decodeLogPlain (withStart v) = (exLogPlain, true) := rfl

/-- The times pass of the example reply: the ended number is taken
verbatim, the started field goes through `numField`. -/
theorem decodeTimes_withStart (v : JVal) :
    decodeTimes (withStart v)
      = (((numField "" v).1, "500"), (numField "" v).2 && true) := rfl

/-- When the started field is accepted with content `x`, the entry decodes
and the started timestamp comes from `ParseInt(x, 10, 64)`. -/
theorem udpLog_withStart_good (v : JVal) (x : String)
    (hb : numField "" v = (x, true)) :
    udpLogUnmarshal (withStart v)
      = ((match parseIntDec64 x.data with
          | some i => { exLogDone with Start := i }
          | none => exLogDone), true) := by
  have h1 : decodeTimes (withStart v) = ((x, "500"), true) := by
    rw [decodeTimes_withStart, hb]
    rfl
  show (match decodeLogPlain (withStart v) with
    | (l, false) => (l, false)
    | (l, true) =>
      match decodeTimes (withStart v) with
      | (_, false) => (l, false)
      | ((s1, s2), true) =>
        let l :=
          match parseIntDec64 s1.data with
          | some i => { l with Start := i }
          | none => l
        let l :=
          match parseIntDec64 s2.data with
          | some i => { l with End := i }
          | none => l
        (l, true)) = _
  rw [decodeLogPlain_withStart, h1]
  cases hp : parseIntDec64 x.data <;> simp [hp] <;> rfl

/-- When the started field is rejected, the whole entry decode fails and
the partially decoded record (both timestamps still zero) is what the
caller's variable holds. -/
theorem udpLog_withStart_bad (v : JVal) (x : String)
    (hb : numField "" v = (x, false)) :
    udpLogUnmarshal (withStart v) = (exLogPlain, false) := by
  have h1 : decodeTimes (withStart v) = ((x, "500"), false) := by
    rw [decodeTimes_withStart, hb]
    rfl
  show (match decodeLogPlain (withStart v) with
    | (l, false) => (l, false)
    | (l, true) =>
      match decodeTimes (withStart v) with
      | (_, false) => (l, false)
      | ((s1, s2), true) =>
        let l :=
          match parseIntDec64 s1.data with
          | some i => { l with Start := i }
          | none => l
        let l :=
          match parseIntDec64 s2.data with
          | some i => { l with End := i }
          | none => l
        (l, true)) = _
  rw [decodeLogPlain_withStart, h1]

/-- Counterexample to claim C3 as stated: a non-numeric string in the
started timestamp field makes the whole entry decode fail, instead of
succeeding with the timestamp left at zero. -/
theorem claim3_counterexample :
    udpLogUnmarshal (withStart (.jstr "x")) = (exLogPlain, false) := by
  decide

/-- Amended claim C3: the two timestamp fields are accepted as a JSON
number or as a string whose content is a valid JSON number; an absent or
null field, or an accepted value that is not a 64-bit integer, leaves the
timestamp at zero with the entry decode succeeding; but a non-numeric
string, or any other JSON value, in these fields fails the whole entry
decode.  Stated on the example reply, with the started field varying. -/
theorem claim3_times_coercion :
    (∀ lit : String, jsonValidNum lit.data = true →
      udpLogUnmarshal (withStart (.jnum lit))
        = ({ exLogDone with Start := (parseIntDec64 lit.data).getD 0 }, true)) ∧
    (∀ s : String,
      udpLogUnmarshal (withStart (.jstr s))
        = if jsonValidNum s.data
          then ({ exLogDone with Start := (parseIntDec64 s.data).getD 0 }, true)
          else (exLogPlain, false)) ∧
    udpLogUnmarshal (.jobj exLogFields) = (exLogDone, true) ∧
    udpLogUnmarshal (withStart .jnull) = (exLogDone, true) ∧
    (∀ b, udpLogUnmarshal (withStart (.jbool b)) = (exLogPlain, false)) ∧
    (∀ es, udpLogUnmarshal (withStart (.jarr es)) = (exLogPlain, false)) ∧
    (∀ kvs, udpLogUnmarshal (withStart (.jobj kvs)) = (exLogPlain, false)) := by
  refine ⟨?_, ?_, by decide, by decide, ?_, ?_, ?_⟩
  · intro lit _
    rw [udpLog_withStart_good (.jnum lit) lit rfl]
    cases hp : parseIntDec64 lit.data <;> (simp [hp]; try decide)
  · intro s
    cases hv : jsonValidNum s.data with
    | false =>
      rw [udpLog_withStart_bad (.jstr s) "" (by simp [numField, hv])]
      simp [hv]
    | true =>
      rw [udpLog_withStart_good (.jstr s) s (by simp [numField, hv])]
      rw [if_pos rfl]
      cases hp : parseIntDec64 s.data <;> (simp [hp]; try decide)
  · intro b
    exact udpLog_withStart_bad (.jbool b) "" rfl
  · intro es
    exact udpLog_withStart_bad (.jarr es) "" rfl
  · intro kvs
    exact udpLog_withStart_bad (.jobj kvs) "" rfl

/-- Witness for C3 at the JSON number 123. -/
theorem claim3_witness :
    jsonValidNum "123".data = true ∧
    udpLogUnmarshal (withStart (.jnum "123"))
      = ({ exLogDone with Start := (parseIntDec64 "123".data).getD 0 }, true) :=
  ⟨by decide, claim3_times_coercion.1 "123" (by decide)⟩

/-- Counterexample to claim C10's parenthetical: decoding `exSysBad`
fails at the mistyped first field Product, yet the later field Serial is
populated rather than staying zero. -/
theorem claim10_counterexample :
    SystemCall (E := Unit) (.reply exSysBad) = (some exSysPartial, some .decode) ∧
    ¬ exSysPartial.Serial = "" := by
  decide

/-- Amended claim C10: System, Config and Session always return a non-nil
record pointer, also when an error is returned (proved for every exchange
outcome); on a decode failure the record is not discarded and may be
partially populated, in two patterns fixed by the decoder: after a plain
field's type mismatch the key scan continues, so well-typed fields before
and after the mismatched one are populated (the reply `exSysBad` fails on
its first field Product yet fills Serial and every later field), while a
failure of the DIPs custom unmarshaler aborts the key scan, so fields
decoded before it are retained and fields after it stay zero (the reply
`exSysAbort` fails at DIP-Sw with Product kept and Serial left empty). -/
theorem claim10_nonnil_partial :
    (∀ (E : Type) (m : Exchange E),
      ¬ (SystemCall m).1 = none ∧ ¬ (ConfigCall m).1 = none ∧
        ¬ (SessionCall m).1 = none) ∧
    SystemCall (E := Unit) (.reply exSysBad) = (some exSysPartial, some .decode) ∧
    exSysPartial.Serial = "KC-P30" ∧
    SystemCall (E := Unit) (.reply exSysAbort) = (some exSysAborted, some .decode) ∧
    exSysAborted.Product = "P30" ∧
    exSysAborted.Serial = "" := by
  refine ⟨?_, by decide, by decide, by decide, by decide, by decide⟩
  intro E m
  cases m with
  | fail e =>
    exact ⟨by simp [SystemCall], by simp [ConfigCall], by simp [SessionCall]⟩
  | reply v =>
    refine ⟨?_, ?_, ?_⟩
    · rcases hsv : decodeSystem v with ⟨s, ok⟩
      simp [SystemCall, hsv]
    · rcases hsv : decodeConfig v with ⟨c, ok⟩
      simp [ConfigCall, hsv]
    · rcases hsv : decodeSession v with ⟨s, ok⟩
      simp [SessionCall, hsv]

end Keba
